import Mathlib

/-!
Verification of the PAF peak-grouping core (sleap/nn/paf_grouping.py).

The Python data model and the algorithms are shallowly embedded below.
Python `dict`s (insertion-ordered, unique keys) are embedded as association
lists whose update operation `insertA` replaces an existing key in place and
appends a fresh key at the end, exactly as CPython dict assignment behaves.
Floating point scalars are embedded as rationals; `tf.norm` (an irrational
square root in general) is passed to `score_pair` as an explicit argument
constrained by hypotheses in the theorems that use it.
-/

/-- `PeakID` from paf_grouping.py: (node_ind, peak_ind). -/
structure PeakID where
  node_ind : Nat
  peak_ind : Nat
deriving DecidableEq

/-- `EdgeType` from paf_grouping.py: directed (src_node_ind, dst_node_ind). -/
structure EdgeType where
  src_node_ind : Nat
  dst_node_ind : Nat
deriving DecidableEq

/-- `EdgeConnection` from paf_grouping.py: (src_peak_ind, dst_peak_ind, score). -/
structure EdgeConnection where
  src_peak_ind : Nat
  dst_peak_ind : Nat
  score : Rat
deriving DecidableEq

/-- The `instance_assignments` dict: PeakID -> instance id, as an ordered
association list (CPython dict iteration order = insertion order). -/
abbrev Assignment := List (PeakID × Int)

/-- The `connections` dict: EdgeType -> list of EdgeConnection, as an ordered
association list. -/
abbrev Connections := List (EdgeType × List EdgeConnection)

/-- `instance_assignments.get(k, None)`. -/
def lookupA : Assignment → PeakID → Option Int
  | [], _ => none
  | e :: rest, k => if e.1 = k then some e.2 else lookupA rest k

/-- `instance_assignments[k] = v` on a CPython dict: replace the value in
place if the key exists, otherwise append the new key at the end. -/
def insertA : Assignment → PeakID → Int → Assignment
  | [], k, v => [(k, v)]
  | e :: rest, k, v => if e.1 = k then (k, v) :: rest else e :: insertA rest k v

/-- The keys of the dict, in order. -/
def keysA (m : Assignment) : List PeakID := m.map (fun e => e.1)

/-- `max(instance_assignments.values(), default=-1)` (line 106). -/
def maxInstance (m : Assignment) : Int := (m.map (fun e => e.2)).foldl max (-1)

/-- `PeakID(edge_type.src_node_ind, connection.src_peak_ind)` (line 96). -/
def srcId (et : EdgeType) (c : EdgeConnection) : PeakID :=
  ⟨et.src_node_ind, c.src_peak_ind⟩

/-- `PeakID(edge_type.dst_node_ind, connection.dst_peak_ind)` (line 97). -/
def dstId (et : EdgeType) (c : EdgeConnection) : PeakID :=
  ⟨et.dst_node_ind, c.dst_peak_ind⟩

/-- `set(peak_id.node_ind for peak_id, instance in instance_assignments.items()
if instance == i)` (lines 124-133), as a list with possible duplicates; only
its set of elements is ever used (via `disjointNodes`). -/
def nodesOf (m : Assignment) (i : Int) : List Nat :=
  (m.filter (fun e => e.2 = i)).map (fun e => e.1.node_ind)

/-- `len(src_instance_nodes.intersection(dst_instance_nodes)) == 0` (line 135). -/
def disjointNodes (a b : List Nat) : Bool :=
  a.all (fun n => decide (n ∉ b))

/-- The merge loop of lines 136-138: every entry currently holding
`dst_instance` is reassigned to `src_instance`. -/
def mergeInto (m : Assignment) (di si : Int) : Assignment :=
  m.map (fun e => if e.2 = di then (e.1, si) else e)

/-- The body of the connection loop (lines 93-138).  Note the `if/elif`
chain of the source has NO branch for `src_instance is None and
dst_instance is not None`: that case falls through and leaves the map
unchanged. -/
def processConnection (m : Assignment) (et : EdgeType) (c : EdgeConnection) :
    Assignment :=
  let s := srcId et c
  let d := dstId et c
  match lookupA m s, lookupA m d with
  | none, none =>
      -- Case 1 (lines 103-108): fresh instance id for both endpoints.
      let ni := maxInstance m + 1
      insertA (insertA m s ni) d ni
  | some si, none =>
      -- Case 2 (lines 110-114): source known, destination not.
      insertA m d si
  | some si, some di =>
      -- Case 3 (lines 116-138): both known.
      let m1 := insertA m d si
      if disjointNodes (nodesOf m1 si) (nodesOf m1 di) then mergeInto m1 di si
      else m1
  | none, some _ => m

/-- Flattening of the two nested loops of lines 90-93: the connections are
processed in edge-type order, and in list order within each edge type. -/
def flattenConnections (conns : Connections) : List (EdgeType × EdgeConnection) :=
  conns.flatMap (fun p => p.2.map (fun c => (p.1, c)))

/-- The grouping loop of `assign_connections_to_instances` (lines 87-138),
before the `min_instance_peaks` filter. -/
def assignLoop (conns : Connections) : Assignment :=
  (flattenConnections conns).foldl (fun m ec => processConnection m ec.1 ec.2) []

/-- The `min_instance_peaks` argument: a Python `int` or a Python `float`. -/
inductive MinPeaks where
  | intVal (n : Int)
  | floatVal (q : Rat)
deriving DecidableEq

/-- `min_instance_peaks > 0` (line 140). -/
def minPeaksPos : MinPeaks → Bool
  | .intVal n => decide (0 < n)
  | .floatVal q => decide (0 < q)

/-- Python `int()` applied to a rational: truncation toward zero. -/
def pyInt (q : Rat) : Int := if 0 ≤ q then ⌊q⌋ else -⌊-q⌋

/-- Node-count inference of lines 143-149: the number of distinct node
indices appearing in the edge-type keys of `connections`. -/
def inferredNodes (conns : Connections) : Nat :=
  ((conns.map (fun p => p.1)).flatMap
    (fun et => [et.src_node_ind, et.dst_node_ind])).dedup.length

/-- Threshold resolution of lines 141-152: an int is used as is; a float is
multiplied by `n_nodes` (inferred when not supplied) and truncated by
`int(...)`. -/
def resolveMinPeaks (mp : MinPeaks) (conns : Connections) (n_nodes : Option Nat) :
    Int :=
  match mp with
  | .intVal n => n
  | .floatVal q => pyInt (q * (n_nodes.getD (inferredNodes conns) : Nat))

/-- `instance_peak_counts[i]` of lines 154-161: the number of peaks assigned
to instance `i`. -/
def countPeaks (m : Assignment) (i : Int) : Nat :=
  (m.filter (fun e => e.2 = i)).length

/-- The small-instance filter of lines 163-168. -/
def filterSmall (m : Assignment) (t : Int) : Assignment :=
  m.filter (fun e => decide (t ≤ (countPeaks m e.2 : Int)))

/-- `assign_connections_to_instances` (lines 51-170). -/
def assign_connections_to_instances (conns : Connections) (mp : MinPeaks)
    (n_nodes : Option Nat) : Assignment :=
  let m := assignLoop conns
  if minPeaksPos mp then filterSmall m (resolveMinPeaks mp conns n_nodes) else m

/-! ### Association-list lemmas -/

theorem lookupA_cons (e : PeakID × Int) (rest : Assignment) (k : PeakID) :
    lookupA (e :: rest) k = if e.1 = k then some e.2 else lookupA rest k := rfl

theorem insertA_cons (e : PeakID × Int) (rest : Assignment) (k : PeakID) (v : Int) :
    insertA (e :: rest) k v =
      if e.1 = k then (k, v) :: rest else e :: insertA rest k v := rfl

theorem keysA_nil : keysA [] = [] := rfl

theorem keysA_cons (e : PeakID × Int) (rest : Assignment) :
    keysA (e :: rest) = e.1 :: keysA rest := rfl

theorem lookupA_insertA_self (m : Assignment) (k : PeakID) (v : Int) :
    lookupA (insertA m k v) k = some v := by
  induction m with
  | nil => simp [insertA, lookupA]
  | cons e rest ih =>
      by_cases h : e.1 = k
      · simp [insertA_cons, h, lookupA_cons]
      · simp [insertA_cons, h, lookupA_cons, ih]

theorem lookupA_insertA_ne (m : Assignment) (k p : PeakID) (v : Int)
    (h : p ≠ k) : lookupA (insertA m k v) p = lookupA m p := by
  have hkp : ¬ (k = p) := fun hh => h hh.symm
  induction m with
  | nil => simp [insertA, lookupA, hkp]
  | cons e rest ih =>
      by_cases he : e.1 = k
      · rw [insertA_cons, if_pos he, lookupA_cons, if_neg hkp, lookupA_cons,
          he, if_neg hkp]
      · rw [insertA_cons, if_neg he, lookupA_cons, lookupA_cons]
        by_cases hp : e.1 = p
        · rw [if_pos hp, if_pos hp]
        · rw [if_neg hp, if_neg hp, ih]

theorem lookupA_eq_none_iff (m : Assignment) (k : PeakID) :
    lookupA m k = none ↔ k ∉ keysA m := by
  induction m with
  | nil => simp [lookupA, keysA]
  | cons e rest ih =>
      rw [lookupA_cons, keysA_cons]
      by_cases h : e.1 = k
      · simp [h]
      · have : ¬ (k = e.1) := fun hh => h hh.symm
        simp [h, this, ih]

theorem insertA_fresh (m : Assignment) (k : PeakID) (v : Int)
    (h : lookupA m k = none) : insertA m k v = m ++ [(k, v)] := by
  induction m with
  | nil => simp [insertA]
  | cons e rest ih =>
      rw [lookupA_cons] at h
      by_cases he : e.1 = k
      · rw [if_pos he] at h
        exact absurd h (by simp)
      · rw [if_neg he] at h
        rw [insertA_cons, if_neg he, ih h, List.cons_append]

theorem lookupA_append_of_none (m m' : Assignment) (k : PeakID)
    (h : lookupA m k = none) : lookupA (m ++ m') k = lookupA m' k := by
  induction m with
  | nil => simp
  | cons e rest ih =>
      rw [lookupA_cons] at h
      by_cases he : e.1 = k
      · rw [if_pos he] at h
        exact absurd h (by simp)
      · rw [if_neg he] at h
        rw [List.cons_append, lookupA_cons, if_neg he, ih h]

theorem lookupA_mergeInto (m : Assignment) (di si : Int) (p : PeakID) :
    lookupA (mergeInto m di si) p =
      (lookupA m p).map (fun v => if v = di then si else v) := by
  induction m with
  | nil => simp [mergeInto, lookupA]
  | cons e rest ih =>
      by_cases hv : e.2 = di
      · rw [show mergeInto (e :: rest) di si = (e.1, si) :: mergeInto rest di si by
            simp [mergeInto, hv]]
        by_cases he : e.1 = p
        · simp [lookupA_cons, he, hv]
        · simp only [lookupA_cons, if_neg he]
          exact ih
      · rw [show mergeInto (e :: rest) di si = e :: mergeInto rest di si by
            simp [mergeInto, hv]]
        by_cases he : e.1 = p
        · simp [lookupA_cons, he, hv]
        · simp only [lookupA_cons, if_neg he]
          exact ih

theorem mem_of_lookupA (m : Assignment) (k : PeakID) (v : Int)
    (h : lookupA m k = some v) : (k, v) ∈ m := by
  induction m with
  | nil => simp [lookupA] at h
  | cons e rest ih =>
      rw [lookupA_cons] at h
      by_cases he : e.1 = k
      · rw [if_pos he, Option.some_inj] at h
        have : e = (k, v) := by
          rcases e with ⟨a, b⟩
          simp only at he h
          rw [he, h]
        rw [← this]
        exact List.mem_cons_self e rest
      · rw [if_neg he] at h
        exact List.mem_cons_of_mem _ (ih h)

theorem keysA_mergeInto (m : Assignment) (di si : Int) :
    keysA (mergeInto m di si) = keysA m := by
  induction m with
  | nil => rfl
  | cons e rest ih =>
      by_cases hv : e.2 = di
      · rw [show mergeInto (e :: rest) di si = (e.1, si) :: mergeInto rest di si by
            simp [mergeInto, hv]]
        rw [keysA_cons, keysA_cons, ih]
      · rw [show mergeInto (e :: rest) di si = e :: mergeInto rest di si by
            simp [mergeInto, hv]]
        rw [keysA_cons, keysA_cons, ih]

theorem mem_keysA_insertA (m : Assignment) (k x : PeakID) (v : Int) :
    x ∈ keysA (insertA m k v) ↔ x ∈ keysA m ∨ x = k := by
  induction m with
  | nil => simp [insertA, keysA]
  | cons e rest ih =>
      by_cases he : e.1 = k
      · rw [insertA_cons, if_pos he, keysA_cons, keysA_cons, he]
        simp only [List.mem_cons]
        tauto
      · rw [insertA_cons, if_neg he, keysA_cons, keysA_cons]
        simp only [List.mem_cons, ih]
        tauto

theorem nodupKeys_insertA (m : Assignment) (k : PeakID) (v : Int)
    (h : (keysA m).Nodup) : (keysA (insertA m k v)).Nodup := by
  induction m with
  | nil => simp [insertA, keysA]
  | cons e rest ih =>
      rw [keysA_cons, List.nodup_cons] at h
      by_cases he : e.1 = k
      · rw [insertA_cons, if_pos he, keysA_cons, List.nodup_cons]
        exact ⟨by rw [← he]; exact h.1, h.2⟩
      · rw [insertA_cons, if_neg he, keysA_cons, List.nodup_cons]
        refine ⟨?_, ih h.2⟩
        intro hmem
        rcases (mem_keysA_insertA rest k e.1 v).1 hmem with h3 | h3
        · exact h.1 h3
        · exact he h3

/-! ### Case analysis of `processConnection` -/

theorem processConnection_case1 (m : Assignment) (et : EdgeType)
    (c : EdgeConnection) (hs : lookupA m (srcId et c) = none)
    (hd : lookupA m (dstId et c) = none) :
    processConnection m et c =
      insertA (insertA m (srcId et c) (maxInstance m + 1)) (dstId et c)
        (maxInstance m + 1) := by
  simp only [processConnection, hs, hd]

theorem processConnection_case2 (m : Assignment) (et : EdgeType)
    (c : EdgeConnection) (si : Int) (hs : lookupA m (srcId et c) = some si)
    (hd : lookupA m (dstId et c) = none) :
    processConnection m et c = insertA m (dstId et c) si := by
  simp only [processConnection, hs, hd]

theorem processConnection_case3 (m : Assignment) (et : EdgeType)
    (c : EdgeConnection) (si di : Int) (hs : lookupA m (srcId et c) = some si)
    (hd : lookupA m (dstId et c) = some di) :
    processConnection m et c =
      (if disjointNodes (nodesOf (insertA m (dstId et c) si) si)
          (nodesOf (insertA m (dstId et c) si) di) then
        mergeInto (insertA m (dstId et c) si) di si
      else insertA m (dstId et c) si) := by
  simp only [processConnection, hs, hd]

theorem processConnection_skip (m : Assignment) (et : EdgeType)
    (c : EdgeConnection) (di : Int) (hs : lookupA m (srcId et c) = none)
    (hd : lookupA m (dstId et c) = some di) :
    processConnection m et c = m := by
  simp only [processConnection, hs, hd]

theorem nodupKeys_processConnection (m : Assignment) (et : EdgeType)
    (c : EdgeConnection) (h : (keysA m).Nodup) :
    (keysA (processConnection m et c)).Nodup := by
  rcases hs : lookupA m (srcId et c) with _ | si <;>
    rcases hd : lookupA m (dstId et c) with _ | di
  · rw [processConnection_case1 m et c hs hd]
    exact nodupKeys_insertA _ _ _ (nodupKeys_insertA _ _ _ h)
  · rw [processConnection_skip m et c di hs hd]
    exact h
  · rw [processConnection_case2 m et c si hs hd]
    exact nodupKeys_insertA _ _ _ h
  · rw [processConnection_case3 m et c si di hs hd]
    by_cases hdisj : disjointNodes (nodesOf (insertA m (dstId et c) si) si)
        (nodesOf (insertA m (dstId et c) si) di)
    · rw [if_pos hdisj, keysA_mergeInto]
      exact nodupKeys_insertA _ _ _ h
    · rw [if_neg hdisj]
      exact nodupKeys_insertA _ _ _ h

theorem nodupKeys_foldl (l : List (EdgeType × EdgeConnection)) (m : Assignment)
    (h : (keysA m).Nodup) :
    (keysA (l.foldl (fun m ec => processConnection m ec.1 ec.2) m)).Nodup := by
  induction l generalizing m with
  | nil => exact h
  | cons ec rest ih =>
      exact ih _ (nodupKeys_processConnection m ec.1 ec.2 h)

theorem nodupKeys_assignLoop (conns : Connections) :
    (keysA (assignLoop conns)).Nodup :=
  nodupKeys_foldl _ [] (by simp [keysA])

/-! ### Lookups through the small-instance filter -/

theorem lookupA_filter_none (m : Assignment) (p : PeakID × Int → Bool)
    (k : PeakID) (h : lookupA m k = none) : lookupA (m.filter p) k = none := by
  induction m with
  | nil => simp [lookupA]
  | cons e rest ih =>
      rw [lookupA_cons] at h
      by_cases he : e.1 = k
      · rw [if_pos he] at h
        exact absurd h (by simp)
      · rw [if_neg he] at h
        by_cases hp : p e
        · rw [List.filter_cons_of_pos hp, lookupA_cons, if_neg he]
          exact ih h
        · rw [List.filter_cons_of_neg (by simpa using hp)]
          exact ih h

theorem lookupA_filter (m : Assignment) (P : Int → Bool) (k : PeakID)
    (h : (keysA m).Nodup) :
    lookupA (m.filter (fun e => P e.2)) k =
      (lookupA m k).bind (fun v => if P v then some v else none) := by
  induction m with
  | nil => simp [lookupA]
  | cons e rest ih =>
      rw [keysA_cons, List.nodup_cons] at h
      by_cases he : e.1 = k
      · have hnone : lookupA rest k = none := by
          rw [lookupA_eq_none_iff]
          rw [← he]
          exact h.1
        by_cases hp : P e.2
        · rw [List.filter_cons_of_pos (by simpa using hp), lookupA_cons,
            if_pos he, lookupA_cons, if_pos he]
          simp [hp]
        · rw [List.filter_cons_of_neg (by simpa using hp), lookupA_cons,
            if_pos he, lookupA_filter_none rest _ k hnone]
          simp [hp]
      · by_cases hp : P e.2
        · rw [List.filter_cons_of_pos (by simpa using hp), lookupA_cons,
            if_neg he, lookupA_cons, if_neg he]
          exact ih h.2
        · rw [List.filter_cons_of_neg (by simpa using hp), lookupA_cons,
            if_neg he]
          exact ih h.2

/-- The threshold the filter stage effectively applies: the resolved
threshold when the filter is active, and 0 (which keeps everything, since
peak counts are nonnegative) when it is skipped. -/
def effectiveThreshold (mp : MinPeaks) (conns : Connections)
    (n_nodes : Option Nat) : Int :=
  if minPeaksPos mp then resolveMinPeaks mp conns n_nodes else 0

theorem filterSmall_zero (m : Assignment) : filterSmall m 0 = m := by
  unfold filterSmall
  rw [List.filter_eq_self]
  intro e _
  simp [Int.natCast_nonneg]

theorem assign_eq_filterSmall (conns : Connections) (mp : MinPeaks)
    (n_nodes : Option Nat) :
    assign_connections_to_instances conns mp n_nodes =
      filterSmall (assignLoop conns) (effectiveThreshold mp conns n_nodes) := by
  unfold assign_connections_to_instances effectiveThreshold
  by_cases h : minPeaksPos mp
  · rw [if_pos h, if_pos h]
  · rw [if_neg h, if_neg h, filterSmall_zero]

theorem lookupA_filterSmall (m : Assignment) (t : Int) (k : PeakID)
    (h : (keysA m).Nodup) :
    lookupA (filterSmall m t) k =
      (lookupA m k).bind (fun v =>
        if decide (t ≤ (countPeaks m v : Int)) = true then some v else none) := by
  have h2 := lookupA_filter m (fun v => decide (t ≤ (countPeaks m v : Int))) k h
  rw [show filterSmall m t =
      m.filter (fun e => decide (t ≤ (countPeaks m e.2 : Int))) from rfl]
  rw [show (m.filter fun e => decide (t ≤ (countPeaks m e.2 : Int))) =
      (m.filter fun e =>
        (fun v => decide (t ≤ (countPeaks m v : Int))) e.2) from rfl]
  rw [h2]

/-! ### The partition loop when every peak occurs in at most one connection -/

/-- All endpoints of a flattened connection list, in processing order. -/
def connectionPeaks (l : List (EdgeType × EdgeConnection)) : List PeakID :=
  l.flatMap (fun ec => [srcId ec.1 ec.2, dstId ec.1 ec.2])

/-- The assignment produced when every connection triggers Case 1: the k-th
connection (0-based) contributes its two endpoints with instance id `n + k`. -/
def pairAssignmentFrom (n : Int) : List (EdgeType × EdgeConnection) → Assignment
  | [] => []
  | ec :: rest =>
      (srcId ec.1 ec.2, n) :: (dstId ec.1 ec.2, n) ::
        pairAssignmentFrom (n + 1) rest

theorem connectionPeaks_cons (ec : EdgeType × EdgeConnection)
    (rest : List (EdgeType × EdgeConnection)) :
    connectionPeaks (ec :: rest) =
      srcId ec.1 ec.2 :: dstId ec.1 ec.2 :: connectionPeaks rest := rfl

theorem maxInstance_append_pair (m : Assignment) (a b : PeakID) (v : Int) :
    maxInstance (m ++ [(a, v), (b, v)]) = max (maxInstance m) v := by
  unfold maxInstance
  rw [List.map_append, List.foldl_append]
  simp only [List.map_cons, List.map_nil, List.foldl_cons, List.foldl_nil]
  rw [max_assoc, max_self]

theorem assignFold_pairs (l : List (EdgeType × EdgeConnection)) :
    ∀ m : Assignment, (∀ p ∈ connectionPeaks l, lookupA m p = none) →
    (connectionPeaks l).Nodup →
    l.foldl (fun m ec => processConnection m ec.1 ec.2) m =
      m ++ pairAssignmentFrom (maxInstance m + 1) l := by
  induction l with
  | nil => intro m _ _; simp [pairAssignmentFrom]
  | cons ec rest ih =>
      intro m hfresh hnd
      rw [connectionPeaks_cons] at hfresh hnd
      have hs : lookupA m (srcId ec.1 ec.2) = none :=
        hfresh _ (List.mem_cons_self _ _)
      have hd : lookupA m (dstId ec.1 ec.2) = none :=
        hfresh _ (List.mem_cons_of_mem _ (List.mem_cons_self _ _))
      rw [List.nodup_cons] at hnd
      have hsd : srcId ec.1 ec.2 ≠ dstId ec.1 ec.2 := by
        intro hh
        exact hnd.1 (hh ▸ List.mem_cons_self _ _)
      have hs_rest : srcId ec.1 ec.2 ∉ connectionPeaks rest := by
        intro hh
        exact hnd.1 (List.mem_cons_of_mem _ hh)
      rw [List.nodup_cons] at hnd
      have hd_rest : dstId ec.1 ec.2 ∉ connectionPeaks rest := hnd.2.1
      have hnd_rest : (connectionPeaks rest).Nodup := hnd.2.2
      set ni := maxInstance m + 1 with hni
      have hstep : processConnection m ec.1 ec.2 =
          m ++ [(srcId ec.1 ec.2, ni), (dstId ec.1 ec.2, ni)] := by
        rw [processConnection_case1 m ec.1 ec.2 hs hd]
        rw [insertA_fresh m _ _ hs]
        have : lookupA (m ++ [(srcId ec.1 ec.2, ni)]) (dstId ec.1 ec.2) = none := by
          rw [lookupA_append_of_none _ _ _ hd, lookupA_cons]
          rw [if_neg hsd]
          rfl
        rw [insertA_fresh _ _ _ this, List.append_assoc]
        rfl
      rw [List.foldl_cons, hstep]
      set m2 := m ++ [(srcId ec.1 ec.2, ni), (dstId ec.1 ec.2, ni)] with hm2
      have hfresh2 : ∀ p ∈ connectionPeaks rest, lookupA m2 p = none := by
        intro p hp
        have hpm : lookupA m p = none :=
          hfresh _ (List.mem_cons_of_mem _ (List.mem_cons_of_mem _ hp))
        rw [hm2, lookupA_append_of_none _ _ _ hpm, lookupA_cons]
        have h1 : ¬ ((srcId ec.1 ec.2, ni).1 = p) := by
          intro hh
          have hh' : srcId ec.1 ec.2 = p := hh
          exact hs_rest (hh' ▸ hp)
        rw [if_neg h1, lookupA_cons]
        have h2 : ¬ ((dstId ec.1 ec.2, ni).1 = p) := by
          intro hh
          have hh' : dstId ec.1 ec.2 = p := hh
          exact hd_rest (hh' ▸ hp)
        rw [if_neg h2]
        rfl
      rw [ih m2 hfresh2 hnd_rest]
      have hmax2 : maxInstance m2 = ni := by
        rw [hm2, maxInstance_append_pair]
        exact max_eq_right (by omega)
      rw [hmax2]
      show m ++ _ ++ _ = m ++ pairAssignmentFrom ni (ec :: rest)
      rw [List.append_assoc]
      rfl

theorem assignLoop_pairs (conns : Connections)
    (hnd : (connectionPeaks (flattenConnections conns)).Nodup) :
    assignLoop conns = pairAssignmentFrom 0 (flattenConnections conns) := by
  unfold assignLoop
  rw [assignFold_pairs (flattenConnections conns) []
    (fun p _ => rfl) hnd]
  simp [maxInstance]

theorem keysA_pairAssignmentFrom (l : List (EdgeType × EdgeConnection)) :
    ∀ n : Int, keysA (pairAssignmentFrom n l) = connectionPeaks l := by
  induction l with
  | nil => intro n; rfl
  | cons ec rest ih =>
      intro n
      rw [pairAssignmentFrom, keysA_cons, keysA_cons, ih (n + 1),
        connectionPeaks_cons]

theorem endpoints_mem_connectionPeaks (l : List (EdgeType × EdgeConnection))
    (ec : EdgeType × EdgeConnection) (h : ec ∈ l) :
    srcId ec.1 ec.2 ∈ connectionPeaks l ∧ dstId ec.1 ec.2 ∈ connectionPeaks l := by
  constructor <;>
    exact List.mem_flatMap.2 ⟨ec, h, by simp⟩

theorem mem_pairAssignmentFrom (l : List (EdgeType × EdgeConnection)) :
    ∀ (n : Int) (p : PeakID) (i : Int), (p, i) ∈ pairAssignmentFrom n l →
      ∃ k, ∃ h : k < l.length, i = n + (k : Int) ∧
        (p = srcId (l.get ⟨k, h⟩).1 (l.get ⟨k, h⟩).2 ∨
         p = dstId (l.get ⟨k, h⟩).1 (l.get ⟨k, h⟩).2) := by
  induction l with
  | nil => intro n p i h; simp [pairAssignmentFrom] at h
  | cons ec rest ih =>
      intro n p i h
      rw [pairAssignmentFrom, List.mem_cons, List.mem_cons] at h
      rcases h with h | h | h
      · rw [Prod.mk.injEq] at h
        exact ⟨0, by simp, by simpa using h.2, Or.inl h.1⟩
      · rw [Prod.mk.injEq] at h
        exact ⟨0, by simp, by simpa using h.2, Or.inr h.1⟩
      · rcases ih (n + 1) p i h with ⟨k, hk, hi, hp⟩
        refine ⟨k + 1, by simpa using Nat.succ_lt_succ hk, by push_cast; omega, ?_⟩
        exact hp

theorem lookup_pairAssignmentFrom (l : List (EdgeType × EdgeConnection)) :
    ∀ (n : Int) (k : Nat) (h : k < l.length),
      (connectionPeaks l).Nodup →
      lookupA (pairAssignmentFrom n l)
          (srcId (l.get ⟨k, h⟩).1 (l.get ⟨k, h⟩).2) = some (n + (k : Int)) ∧
      lookupA (pairAssignmentFrom n l)
          (dstId (l.get ⟨k, h⟩).1 (l.get ⟨k, h⟩).2) = some (n + (k : Int)) := by
  induction l with
  | nil => intro n k h; simp at h
  | cons ec rest ih =>
      intro n k h hnd
      rw [connectionPeaks_cons, List.nodup_cons] at hnd
      have hsd : srcId ec.1 ec.2 ≠ dstId ec.1 ec.2 := by
        intro hh
        exact hnd.1 (hh ▸ List.mem_cons_self _ _)
      have hs_rest : srcId ec.1 ec.2 ∉ connectionPeaks rest := by
        intro hh
        exact hnd.1 (List.mem_cons_of_mem _ hh)
      rw [List.nodup_cons] at hnd
      have hd_rest : dstId ec.1 ec.2 ∉ connectionPeaks rest := hnd.2.1
      have hnd_rest : (connectionPeaks rest).Nodup := hnd.2.2
      match k with
      | 0 =>
          have hget0 : (ec :: rest).get ⟨0, h⟩ = ec := rfl
          rw [hget0]
          constructor
          · rw [pairAssignmentFrom, lookupA_cons,
              if_pos (show (srcId ec.1 ec.2, n).1 = srcId ec.1 ec.2 from rfl)]
            simp
          · rw [pairAssignmentFrom, lookupA_cons,
              if_neg (show ¬ (srcId ec.1 ec.2, n).1 = dstId ec.1 ec.2 from hsd),
              lookupA_cons,
              if_pos (show (dstId ec.1 ec.2, n).1 = dstId ec.1 ec.2 from rfl)]
            simp
      | k + 1 =>
          have hk : k < rest.length := Nat.lt_of_succ_lt_succ h
          have hget : (ec :: rest).get ⟨k + 1, h⟩ = rest.get ⟨k, hk⟩ := rfl
          have hmem := endpoints_mem_connectionPeaks rest (rest.get ⟨k, hk⟩)
            (rest.get_mem k hk)
          have ihk := ih (n + 1) k hk hnd_rest
          rw [hget]
          have hcast : n + 1 + (k : Int) = n + ((k : Nat) + 1 : Nat) := by
            push_cast
            omega
          constructor
          · rw [pairAssignmentFrom, lookupA_cons,
              if_neg (fun hh => hs_rest ((show srcId ec.1 ec.2 = _ from hh) ▸ hmem.1)),
              lookupA_cons,
              if_neg (fun hh => hd_rest ((show dstId ec.1 ec.2 = _ from hh) ▸ hmem.1)),
              ihk.1, hcast]
          · rw [pairAssignmentFrom, lookupA_cons,
              if_neg (fun hh => hs_rest ((show srcId ec.1 ec.2 = _ from hh) ▸ hmem.2)),
              lookupA_cons,
              if_neg (fun hh => hd_rest ((show dstId ec.1 ec.2 = _ from hh) ▸ hmem.2)),
              ihk.2, hcast]

/-- Invariant I2 of the specification: no two distinct PeakIDs with the same
node index are mapped to the same instance id. -/
def InvariantI2 (m : Assignment) : Prop :=
  ∀ p i q j, (p, i) ∈ m → (q, j) ∈ m → p ≠ q → p.node_ind = q.node_ind → i ≠ j

theorem I2_pairAssignmentFrom (l : List (EdgeType × EdgeConnection)) (n : Int)
    (hnodes : ∀ ec ∈ l, ec.1.src_node_ind ≠ ec.1.dst_node_ind) :
    InvariantI2 (pairAssignmentFrom n l) := by
  intro p i q j hp hq hpq hnode hij
  subst hij
  rcases mem_pairAssignmentFrom l n p i hp with ⟨k1, h1, hi1, hp1⟩
  rcases mem_pairAssignmentFrom l n q i hq with ⟨k2, h2, hi2, hp2⟩
  have hk : k1 = k2 := by
    have : (k1 : Int) = (k2 : Int) := by omega
    exact_mod_cast this
  subst hk
  have hmem : l.get ⟨k1, h1⟩ ∈ l := l.get_mem k1 h1
  have hne := hnodes _ hmem
  rcases hp1 with hp1 | hp1 <;> rcases hp2 with hp2 | hp2
  · exact hpq (hp1.trans hp2.symm)
  · apply hne
    rw [hp1, hp2] at hnode
    exact hnode
  · apply hne
    rw [hp1, hp2] at hnode
    exact hnode.symm
  · exact hpq (hp1.trans hp2.symm)

theorem I2_of_filter (m : Assignment) (p : PeakID × Int → Bool)
    (h : InvariantI2 m) : InvariantI2 (m.filter p) := by
  intro a i b j ha hb hab hnode
  exact h a i b j (List.mem_filter.1 ha).1 (List.mem_filter.1 hb).1 hab hnode

/-! ### Claim C1: Case 2 handling -/

/-- Claim C1 counterexample: in the input
`[(EdgeType 0 1, [conn 0 0]), (EdgeType 2 1, [conn 0 0])]` the second
connection reaches the loop with its destination peak (1,0) already assigned
(to instance 0) and its source peak (2,0) unassigned; the claim says the
unassigned endpoint is then mapped to instance 0, but the code has no branch
for this case and leaves (2,0) unassigned in the final output. -/
theorem C1_counterexample :
    lookupA (assignLoop [(⟨0, 1⟩, [⟨0, 0, 1⟩])]) ⟨1, 0⟩ = some 0 ∧
    lookupA (assignLoop [(⟨0, 1⟩, [⟨0, 0, 1⟩])]) ⟨2, 0⟩ = none ∧
    lookupA (assign_connections_to_instances
        [(⟨0, 1⟩, [⟨0, 0, 1⟩]), (⟨2, 1⟩, [⟨0, 0, 1⟩])] (.intVal 0) none)
      ⟨2, 0⟩ = none := by
  decide

/-- Claim C1 (amended): when exactly one endpoint of a connection is already
assigned, the unassigned endpoint is mapped to the known endpoint's instance
id only when the known endpoint is the SOURCE; when only the destination is
known, the connection is skipped and the mapping is left unchanged. -/
theorem C1_amended (m : Assignment) (et : EdgeType) (c : EdgeConnection) :
    (∀ i, lookupA m (srcId et c) = some i → lookupA m (dstId et c) = none →
      lookupA (processConnection m et c) (dstId et c) = some i) ∧
    (lookupA m (srcId et c) = none → ∀ i, lookupA m (dstId et c) = some i →
      processConnection m et c = m) := by
  constructor
  · intro i hs hd
    rw [processConnection_case2 m et c i hs hd]
    exact lookupA_insertA_self m _ i
  · intro hs i hd
    exact processConnection_skip m et c i hs hd

/-- Witness for C1_amended at concrete inputs. -/
theorem C1_amended_witness :
    lookupA (processConnection [(⟨0, 0⟩, 5)] ⟨0, 1⟩ ⟨0, 0, 1⟩) ⟨1, 0⟩ = some 5 ∧
    processConnection [(⟨1, 0⟩, 5)] ⟨0, 1⟩ ⟨0, 0, 1⟩ = [(⟨1, 0⟩, 5)] :=
  ⟨(C1_amended [(⟨0, 0⟩, 5)] ⟨0, 1⟩ ⟨0, 0, 1⟩).1 5 (by decide) (by decide),
   (C1_amended [(⟨1, 0⟩, 5)] ⟨0, 1⟩ ⟨0, 0, 1⟩).2 (by decide) 5 (by decide)⟩

/-! ### Claim C3: invariant I2 -/

/-- Claim C3 counterexample: with the single edge type (0,1) and the two
connections (0,0) and (0,1) sharing source peak 0, the output maps the two
distinct peaks (1,0) and (1,1) — same node index 1 — to the same instance
id 0, violating I2. -/
theorem C3_counterexample :
    ¬ InvariantI2 (assign_connections_to_instances
        [(⟨0, 1⟩, [⟨0, 0, 1⟩, ⟨0, 1, 1⟩])] (.intVal 0) none) :=
  fun h => (h ⟨1, 0⟩ 0 ⟨1, 1⟩ 0 (by decide) (by decide) (by decide) rfl) rfl

/-- Claim C3 (amended): the returned mapping satisfies I2 provided each
PeakID occurs as an endpoint of at most one connection and every edge type
joins two distinct node indices (under these hypotheses every connection is
handled by Case 1). -/
theorem C3_amended (conns : Connections) (mp : MinPeaks) (nn : Option Nat)
    (h1 : (connectionPeaks (flattenConnections conns)).Nodup)
    (h2 : ∀ ec ∈ flattenConnections conns,
      ec.1.src_node_ind ≠ ec.1.dst_node_ind) :
    InvariantI2 (assign_connections_to_instances conns mp nn) := by
  rw [assign_eq_filterSmall]
  unfold filterSmall
  apply I2_of_filter
  rw [assignLoop_pairs conns h1]
  exact I2_pairAssignmentFrom _ 0 h2

/-- Witness for C3_amended at a concrete input. -/
theorem C3_amended_witness :
    InvariantI2 (assign_connections_to_instances
      [(⟨0, 1⟩, [⟨0, 0, 1⟩])] (.intVal 0) none) :=
  C3_amended _ _ _ (by decide) (by decide)

/-! ### Claim C4: invariant I3 / the assertion in make_predicted_instances -/

/-- The property checked by the assertion of make_predicted_instances
(lines 185-203): for every connection whose source PeakID is present in the
final assignment, the destination PeakID is present too (no KeyError) and
mapped to the same instance id (the `assert` of line 203). -/
def AssertionOK (conns : Connections) (m : Assignment) : Prop :=
  ∀ ec ∈ flattenConnections conns, ∀ i,
    lookupA m (srcId ec.1 ec.2) = some i → lookupA m (dstId ec.1 ec.2) = some i

/-- Claim C4 counterexample: edge types (0,1), (2,1), (2,3) with one
connection each.  The second connection is skipped (destination-only-known
case), so peak (2,0) later founds instance 1 with (3,0) while (1,0) stays in
instance 0; the connection ((2,1),(0,0)) then has its source mapped to 1 and
its destination mapped to 0, so the assertion of line 203 fails. -/
theorem C4_counterexample :
    ¬ AssertionOK [(⟨0, 1⟩, [⟨0, 0, 1⟩]), (⟨2, 1⟩, [⟨0, 0, 1⟩]),
        (⟨2, 3⟩, [⟨0, 0, 1⟩])]
      (assign_connections_to_instances
        [(⟨0, 1⟩, [⟨0, 0, 1⟩]), (⟨2, 1⟩, [⟨0, 0, 1⟩]), (⟨2, 3⟩, [⟨0, 0, 1⟩])]
        (.intVal 0) none) :=
  fun h => absurd (h (⟨2, 1⟩, ⟨0, 0, 1⟩) (by decide) 1 (by decide)) (by decide)

/-- Claim C4 (amended): whenever each PeakID occurs as an endpoint of at
most one connection, every connection whose source survives into the final
(possibly filtered) assignment also has its destination present with the
same instance id, so the assertion in make_predicted_instances cannot fail
and no KeyError is raised there. -/
theorem C4_amended (conns : Connections) (mp : MinPeaks) (nn : Option Nat)
    (h1 : (connectionPeaks (flattenConnections conns)).Nodup) :
    AssertionOK conns (assign_connections_to_instances conns mp nn) := by
  intro ec hmem i hsrc
  rw [assign_eq_filterSmall] at hsrc ⊢
  have hkeys : (keysA (assignLoop conns)).Nodup := nodupKeys_assignLoop conns
  rw [lookupA_filterSmall _ _ _ hkeys] at hsrc ⊢
  rcases hs' : lookupA (assignLoop conns) (srcId ec.1 ec.2) with _ | v
  · rw [hs'] at hsrc
    simp at hsrc
  · rw [hs'] at hsrc
    rw [Option.some_bind] at hsrc
    by_cases hP : decide ((effectiveThreshold mp conns nn) ≤
        (countPeaks (assignLoop conns) v : Int)) = true
    · rw [if_pos hP] at hsrc
      have hvi : v = i := Option.some_inj.1 hsrc
      subst hvi
      rcases List.mem_iff_get.1 hmem with ⟨⟨k, hk⟩, hget⟩
      have hpair := lookup_pairAssignmentFrom (flattenConnections conns) 0 k hk h1
      rw [hget, ← assignLoop_pairs conns h1] at hpair
      have hvk : v = 0 + (k : Int) := Option.some_inj.1 (hs'.symm.trans hpair.1)
      rw [hpair.2, ← hvk, Option.some_bind, if_pos hP]
    · rw [if_neg hP] at hsrc
      exact absurd hsrc (by simp)

/-- Witness for C4_amended at a concrete input. -/
theorem C4_amended_witness :
    AssertionOK [(⟨0, 1⟩, [⟨0, 0, 1⟩]), (⟨2, 3⟩, [⟨0, 0, 1⟩])]
      (assign_connections_to_instances
        [(⟨0, 1⟩, [⟨0, 0, 1⟩]), (⟨2, 3⟩, [⟨0, 0, 1⟩])] (.intVal 0) none) :=
  C4_amended _ _ _ (by decide)

/-! ### Claim C6: Case 3 semantics -/

/-- Claim C6: when both endpoints are assigned, the destination is
unconditionally reassigned to the source's instance, and the remaining peaks
of the destination's original instance are reassigned to the source's
instance exactly when the node-index sets of the two instances (computed
after the overwrite, as the code does) are disjoint; otherwise they keep
their old id. -/
theorem C6_case3 (m : Assignment) (et : EdgeType) (c : EdgeConnection)
    (si di : Int) (hs : lookupA m (srcId et c) = some si)
    (hd : lookupA m (dstId et c) = some di) :
    lookupA (processConnection m et c) (dstId et c) = some si ∧
    (∀ p, p ≠ dstId et c → lookupA m p = some di →
      lookupA (processConnection m et c) p =
        (if disjointNodes (nodesOf (insertA m (dstId et c) si) si)
            (nodesOf (insertA m (dstId et c) si) di) then some si
         else some di)) := by
  rw [processConnection_case3 m et c si di hs hd]
  by_cases hdisj : disjointNodes (nodesOf (insertA m (dstId et c) si) si)
      (nodesOf (insertA m (dstId et c) si) di)
  · constructor
    · rw [if_pos hdisj, lookupA_mergeInto, lookupA_insertA_self]
      by_cases h2 : si = di <;> simp [h2]
    · intro p hp hpd
      rw [if_pos hdisj, if_pos hdisj, lookupA_mergeInto,
        lookupA_insertA_ne m _ p si hp, hpd]
      simp
  · constructor
    · rw [if_neg hdisj]
      exact lookupA_insertA_self m _ si
    · intro p hp hpd
      rw [if_neg hdisj, if_neg hdisj, lookupA_insertA_ne m _ p si hp, hpd]

/-- Witness for C6_case3: both endpoints assigned, disjoint node sets, so
the destination's old partner (3,0) is merged into the source's instance. -/
theorem C6_case3_witness :
    lookupA (processConnection
        [(⟨0, 0⟩, 0), (⟨1, 0⟩, 0), (⟨2, 0⟩, 1), (⟨3, 0⟩, 1)]
        ⟨0, 2⟩ ⟨0, 0, 1⟩) ⟨2, 0⟩ = some 0 ∧
    lookupA (processConnection
        [(⟨0, 0⟩, 0), (⟨1, 0⟩, 0), (⟨2, 0⟩, 1), (⟨3, 0⟩, 1)]
        ⟨0, 2⟩ ⟨0, 0, 1⟩) ⟨3, 0⟩ = some 0 := by
  have h := C6_case3 [(⟨0, 0⟩, 0), (⟨1, 0⟩, 0), (⟨2, 0⟩, 1), (⟨3, 0⟩, 1)]
    ⟨0, 2⟩ ⟨0, 0, 1⟩ 0 1 (by decide) (by decide)
  refine ⟨h.1, ?_⟩
  have h2 := h.2 ⟨3, 0⟩ (by decide) (by decide)
  rw [h2]
  decide

/-! ### Claim C8: fractional min_instance_peaks -/

/-- Claim C8: a fractional `min_instance_peaks` q in (0,1] is resolved to
the floor of q times the supplied n_nodes (or, when absent, the number of
distinct node indices in the connections' edge types); exactly the PeakIDs
whose instance has strictly fewer peaks than this threshold are removed and
every other entry keeps its instance id. -/
theorem C8_fractional_filter (conns : Connections) (q : Rat) (nn : Option Nat)
    (h0 : 0 < q) (h1 : q ≤ 1) :
    resolveMinPeaks (.floatVal q) conns nn =
      ⌊q * (nn.getD (inferredNodes conns) : Nat)⌋ ∧
    (∀ p i, lookupA (assignLoop conns) p = some i →
      lookupA (assign_connections_to_instances conns (.floatVal q) nn) p =
        (if ⌊q * (nn.getD (inferredNodes conns) : Nat)⌋ ≤
            (countPeaks (assignLoop conns) i : Int)
         then some i else none)) ∧
    (∀ p, lookupA (assignLoop conns) p = none →
      lookupA (assign_connections_to_instances conns (.floatVal q) nn) p =
        none) := by
  have hres : resolveMinPeaks (.floatVal q) conns nn =
      ⌊q * (nn.getD (inferredNodes conns) : Nat)⌋ := by
    simp only [resolveMinPeaks, pyInt]
    rw [if_pos (mul_nonneg h0.le (by positivity))]
  have hpos : minPeaksPos (.floatVal q) = true := by
    unfold minPeaksPos
    simpa using h0
  have hform : assign_connections_to_instances conns (.floatVal q) nn =
      filterSmall (assignLoop conns)
        ⌊q * (nn.getD (inferredNodes conns) : Nat)⌋ := by
    unfold assign_connections_to_instances
    rw [if_pos hpos, hres]
  have hkeys : (keysA (assignLoop conns)).Nodup := nodupKeys_assignLoop conns
  refine ⟨hres, ?_, ?_⟩
  · intro p i hpi
    rw [hform, lookupA_filterSmall _ _ _ hkeys, hpi, Option.some_bind]
    by_cases hc : ⌊q * (nn.getD (inferredNodes conns) : Nat)⌋ ≤
        (countPeaks (assignLoop conns) i : Int)
    · rw [if_pos (by simpa using hc), if_pos hc]
    · rw [if_neg (by simpa using hc), if_neg hc]
  · intro p hp
    rw [hform, lookupA_filterSmall _ _ _ hkeys, hp, Option.none_bind]

/-- Witness for C8_fractional_filter: two 2-peak instances over 4 node
types and q = 3/4, so the threshold resolves to 3 and both instances are
dropped. -/
theorem C8_fractional_filter_witness :
    lookupA (assign_connections_to_instances
        [(⟨0, 1⟩, [⟨0, 0, 1⟩]), (⟨2, 3⟩, [⟨0, 0, 1⟩])]
        (.floatVal (3 / 4)) none) ⟨0, 0⟩ = none := by
  have h := (C8_fractional_filter
      [(⟨0, 1⟩, [⟨0, 0, 1⟩]), (⟨2, 3⟩, [⟨0, 0, 1⟩])] (3 / 4) none
      (by norm_num) (by norm_num)).2.1 ⟨0, 0⟩ 0 (by decide)
  rw [h]
  have e1 : (none : Option Nat).getD (inferredNodes
      [(⟨0, 1⟩, [⟨0, 0, 1⟩]), (⟨2, 3⟩, [⟨0, 0, 1⟩])]) = 4 := by decide
  have e2 : countPeaks (assignLoop
      [(⟨0, 1⟩, [⟨0, 0, 1⟩]), (⟨2, 3⟩, [⟨0, 0, 1⟩])]) 0 = 2 := by decide
  rw [e1, e2]
  have e3 : ¬ (⌊(3 / 4 : Rat) * ((4 : Nat) : Rat)⌋ ≤ (((2 : Nat) : Int))) := by
    norm_num
  rw [if_neg e3]

/-! ### Claim C9: instance count antitone in the filter threshold -/

/-- `n_instances = len(np.unique(list(instance_assignments.values())))`
(lines 175-180): the number of distinct instance ids in the assignment. -/
def numInstances (m : Assignment) : Nat := (m.map (fun e => e.2)).dedup.length

theorem dedup_length_le_of_subset (l1 l2 : List Int) (h : l1 ⊆ l2) :
    l1.dedup.length ≤ l2.dedup.length := by
  rw [← List.card_toFinset, ← List.card_toFinset]
  apply Finset.card_le_card
  intro x hx
  rw [List.mem_toFinset] at hx ⊢
  exact h hx

theorem filterSmall_subset_filterSmall (m : Assignment) (t1 t2 : Int)
    (h : t1 ≤ t2) : filterSmall m t2 ⊆ filterSmall m t1 := by
  intro e he
  unfold filterSmall at he ⊢
  rw [List.mem_filter] at he ⊢
  refine ⟨he.1, ?_⟩
  have h2 := he.2
  rw [decide_eq_true_eq] at h2 ⊢
  omega

/-- Claim C9: for a fixed connections input and n_nodes, if two
min_instance_peaks settings resolve to effective thresholds t1 ≤ t2, the
number of distinct instance ids surviving the filter with the larger
threshold is at most the number surviving with the smaller one. -/
theorem C9_monotone (conns : Connections) (nn : Option Nat)
    (mp1 mp2 : MinPeaks)
    (h : effectiveThreshold mp1 conns nn ≤ effectiveThreshold mp2 conns nn) :
    numInstances (assign_connections_to_instances conns mp2 nn) ≤
      numInstances (assign_connections_to_instances conns mp1 nn) := by
  rw [assign_eq_filterSmall, assign_eq_filterSmall]
  apply dedup_length_le_of_subset
  intro v hv
  rw [List.mem_map] at hv ⊢
  rcases hv with ⟨e, he, hev⟩
  exact ⟨e, filterSmall_subset_filterSmall _ _ _ h he, hev⟩

/-- Witness for C9_monotone: thresholds 1 and 2 over two 2-peak instances. -/
theorem C9_monotone_witness :
    numInstances (assign_connections_to_instances
        [(⟨0, 1⟩, [⟨0, 0, 1⟩]), (⟨2, 3⟩, [⟨0, 0, 1⟩])] (.intVal 3) none) ≤
      numInstances (assign_connections_to_instances
        [(⟨0, 1⟩, [⟨0, 0, 1⟩]), (⟨2, 3⟩, [⟨0, 0, 1⟩])] (.intVal 1) none) :=
  C9_monotone _ none (.intVal 1) (.intVal 3) (by decide)

/-! ### Claim C10: make_predicted_instances renormalises the mapping in place -/

/-- First index of `v` in `l` (the index into the sorted unique array that
`np.unique(..., return_inverse=True)` produces). -/
def idxOfInt (v : Int) : List Int → Nat
  | [] => 0
  | y :: ys => if y = v then 0 else idxOfInt v ys + 1

/-- `instance_ids = np.unique(list(instance_assignments.values()))`
(lines 175-177): the sorted list of distinct instance ids.  (A sorted
duplicate-free list is unique for a given set of elements, so sorting the
deduplicated value list reproduces np.unique exactly.) -/
def uniqueInstanceIds (m : Assignment) : List Int :=
  List.insertionSort (fun a b => a ≤ b) (m.map (fun e => e.2)).dedup

/-- Lines 174-179 of make_predicted_instances: the loop
`for peak_id, instance_ind in zip(instance_assignments.keys(), instance_inds):
instance_assignments[peak_id] = instance_ind` overwrites, in the caller's
dict, every instance id with its position in `instance_ids`.  This function
is the post-call state of the `instance_assignments` argument. -/
def renormalize_assignments (m : Assignment) : Assignment :=
  m.map (fun e => (e.1, (idxOfInt e.2 (uniqueInstanceIds m) : Int)))

theorem idxOfInt_lt_length (v : Int) (l : List Int) (h : v ∈ l) :
    idxOfInt v l < l.length := by
  induction l with
  | nil => simp at h
  | cons y ys ih =>
      by_cases hy : y = v
      · simp [idxOfInt, hy]
      · rw [List.mem_cons] at h
        rcases h with h | h
        · exact absurd h.symm hy
        · simpa [idxOfInt, hy] using ih h

theorem lookupA_mapValues (m : Assignment) (f : Int → Int) (p : PeakID) :
    lookupA (m.map (fun e => (e.1, f e.2))) p = (lookupA m p).map f := by
  induction m with
  | nil => simp [lookupA]
  | cons e rest ih =>
      by_cases he : e.1 = p
      · simp [lookupA_cons, he]
      · simp only [List.map_cons, lookupA_cons, if_neg he]
        exact ih

/-- Claim C10: after make_predicted_instances runs, the mapping passed in by
the caller has every value replaced by the position of the original instance
id in the sorted list of distinct ids, a contiguous index in [0, M). -/
theorem C10_renormalize (m : Assignment) (p : PeakID) (v : Int)
    (h : lookupA m p = some v) :
    lookupA (renormalize_assignments m) p =
      some (idxOfInt v (uniqueInstanceIds m)) ∧
    idxOfInt v (uniqueInstanceIds m) < (uniqueInstanceIds m).length ∧
    (uniqueInstanceIds m).Sorted (fun a b => a ≤ b) := by
  refine ⟨?_, ?_, ?_⟩
  · have h2 := lookupA_mapValues m
      (fun w => (idxOfInt w (uniqueInstanceIds m) : Int)) p
    rw [show renormalize_assignments m =
        m.map (fun e =>
          (e.1, (fun w => (idxOfInt w (uniqueInstanceIds m) : Int)) e.2))
        from rfl]
    rw [h2, h]
    rfl
  · apply idxOfInt_lt_length
    have hv : v ∈ m.map (fun e => e.2) :=
      List.mem_map.2 ⟨(p, v), mem_of_lookupA m p v h, rfl⟩
    have hv2 : v ∈ (m.map (fun e => e.2)).dedup := List.mem_dedup.2 hv
    exact (List.Perm.mem_iff (List.perm_insertionSort _ _)).2 hv2
  · exact List.sorted_insertionSort _ _

/-- Witness for C10_renormalize: ids [5, 2] renormalise to [1, 0]. -/
theorem C10_renormalize_witness :
    lookupA (renormalize_assignments [(⟨0, 0⟩, 5), (⟨1, 0⟩, 2)]) ⟨0, 0⟩ =
      some 1 := by
  have h := (C10_renormalize [(⟨0, 0⟩, 5), (⟨1, 0⟩, 2)] ⟨0, 0⟩ 5 (by decide)).1
  rw [h]
  decide

/-! ### Vector-field sampler (PAFScorer.sample_edge_line) -/

/-- `tf.round`: round to the nearest integer, breaking ties to the nearest
EVEN integer (banker's rounding), which is the documented semantics of
tf.round. -/
def roundHalfToEven (q : Rat) : Int :=
  if q - ⌊q⌋ < 1 / 2 then ⌊q⌋
  else if 1 / 2 < q - ⌊q⌋ then ⌊q⌋ + 1
  else if ⌊q⌋ % 2 = 0 then ⌊q⌋ else ⌊q⌋ + 1

/-- Round half AWAY from zero — the rounding the specification prescribes
for the sampler; kept only to compare against the implementation. -/
def roundHalfAway (q : Rat) : Int :=
  if 0 ≤ q then ⌊q + 1 / 2⌋ else -⌊-q + 1 / 2⌋

/-- `tf.clip_by_value(v, lo, hi)` on integers. -/
def clipZ (v lo hi : Int) : Int := max lo (min v hi)

/-- `tf.linspace(a, b, n)`: n evenly spaced values from a to b inclusive
(for n = 1 the single value a; note x / 0 = 0 in Rat, which matches). -/
def linspace (a b : Rat) (n : Nat) : List Rat :=
  (List.range n).map (fun (i : Nat) => a + (b - a) * (i : Rat) / ((n : Rat) - 1))

/-- `PAFScorer.sample_edge_line` (lines 267-294).  The PAF slice is a
row-major H-by-W grid of (x, y) vector pairs; `max_x = W - 1` and
`max_y = H - 1` come from the tensor shape (lines 272-273).  The sampled
coordinates are divided by the stride, rounded with tf.round
(round-half-to-even) and THEN clipped to the grid bounds (lines 281-282),
before gathering the vector at each (row, col). -/
def sample_edge_line (pafs_stride : Nat) (n_points : Nat)
    (paf : List (List (Rat × Rat))) (src_peak dst_peak : Rat × Rat) :
    List (Rat × Rat) :=
  let maxX : Int := ((paf.headD []).length : Int) - 1
  let maxY : Int := (paf.length : Int) - 1
  let lineX := (linspace src_peak.1 dst_peak.1 n_points).map
    (fun q => q / (pafs_stride : Rat))
  let lineY := (linspace src_peak.2 dst_peak.2 n_points).map
    (fun q => q / (pafs_stride : Rat))
  let xs := lineX.map (fun q => clipZ (roundHalfToEven q) 0 maxX)
  let ys := lineY.map (fun q => clipZ (roundHalfToEven q) 0 maxY)
  (ys.zip xs).map (fun yx => (paf.getD yx.1.toNat []).getD yx.2.toNat (0, 0))

/-- The sampler exactly as the specification words it (round half away from
zero instead of tf.round's round half to even); used only for comparison
with `sample_edge_line`. -/
def sample_edge_line_spec (pafs_stride : Nat) (n_points : Nat)
    (paf : List (List (Rat × Rat))) (src_peak dst_peak : Rat × Rat) :
    List (Rat × Rat) :=
  let maxX : Int := ((paf.headD []).length : Int) - 1
  let maxY : Int := (paf.length : Int) - 1
  let lineX := (linspace src_peak.1 dst_peak.1 n_points).map
    (fun q => q / (pafs_stride : Rat))
  let lineY := (linspace src_peak.2 dst_peak.2 n_points).map
    (fun q => q / (pafs_stride : Rat))
  let xs := lineX.map (fun q => clipZ (roundHalfAway q) 0 maxX)
  let ys := lineY.map (fun q => clipZ (roundHalfAway q) 0 maxY)
  (ys.zip xs).map (fun yx => (paf.getD yx.1.toNat []).getD yx.2.toNat (0, 0))

/-- Claim C5 counterexample: on a 2x2 PAF grid with stride 2 and both peaks
at (1,1), every sample coordinate is 0.5 in grid units; tf.round (half to
even) takes it to 0, so the code gathers paf[0][0] = (1,2), whereas
round-half-away-from-zero would take it to 1 and gather paf[1][1] = (7,8).
So the claim's rounding rule does not match the implementation. -/
theorem C5_counterexample :
    sample_edge_line 2 3 [[(1, 2), (3, 4)], [(5, 6), (7, 8)]] (1, 1) (1, 1) =
      [(1, 2), (1, 2), (1, 2)] ∧
    sample_edge_line_spec 2 3 [[(1, 2), (3, 4)], [(5, 6), (7, 8)]]
        (1, 1) (1, 1) =
      [(7, 8), (7, 8), (7, 8)] ∧
    sample_edge_line 2 3 [[(1, 2), (3, 4)], [(5, 6), (7, 8)]] (1, 1) (1, 1) ≠
      sample_edge_line_spec 2 3 [[(1, 2), (3, 4)], [(5, 6), (7, 8)]]
        (1, 1) (1, 1) := by
  have hval : ((1 : Rat) + (1 - 1) * 0 / ((3 : Rat) - 1)) / (2 : Rat) = 1 / 2 ∧
      ((1 : Rat) + (1 - 1) * 1 / ((3 : Rat) - 1)) / (2 : Rat) = 1 / 2 ∧
      ((1 : Rat) + (1 - 1) * 2 / ((3 : Rat) - 1)) / (2 : Rat) = 1 / 2 := by
    norm_num
  have he : roundHalfToEven (1 / 2) = 0 := by
    unfold roundHalfToEven
    norm_num
  have ha : roundHalfAway (1 / 2) = 1 := by
    unfold roundHalfAway
    norm_num
  have hrange : List.range 3 = [0, 1, 2] := by decide
  refine ⟨?_, ?_, ?_⟩
  · unfold sample_edge_line linspace
    rw [hrange]
    simp only [List.map_cons, List.map_nil, Nat.cast_ofNat, Nat.cast_one,
      Nat.cast_zero]
    norm_num [he, clipZ]
  · unfold sample_edge_line_spec linspace
    rw [hrange]
    simp only [List.map_cons, List.map_nil, Nat.cast_ofNat, Nat.cast_one,
      Nat.cast_zero]
    norm_num [ha, clipZ]
  · intro hcontra
    rw [show sample_edge_line 2 3 [[(1, 2), (3, 4)], [(5, 6), (7, 8)]]
        (1, 1) (1, 1) = [(1, 2), (1, 2), (1, 2)] from by
      unfold sample_edge_line linspace
      rw [hrange]
      simp only [List.map_cons, List.map_nil, Nat.cast_ofNat, Nat.cast_one,
        Nat.cast_zero]
      norm_num [he, clipZ]] at hcontra
    rw [show sample_edge_line_spec 2 3 [[(1, 2), (3, 4)], [(5, 6), (7, 8)]]
        (1, 1) (1, 1) = [(7, 8), (7, 8), (7, 8)] from by
      unfold sample_edge_line_spec linspace
      rw [hrange]
      simp only [List.map_cons, List.map_nil, Nat.cast_ofNat, Nat.cast_one,
        Nat.cast_zero]
      norm_num [ha, clipZ]] at hcontra
    norm_num at hcontra

/-- Claim C5 (amended): sample_edge_line generates n_points linearly spaced
coordinates from the source peak to the destination peak inclusive, divides
them by the stride, rounds each coordinate to the nearest integer with ties
broken TO EVEN (tf.round), and only then clips x to [0, W-1] and y to
[0, H-1] before gathering the PAF vectors. -/
theorem C5_amended (pafs_stride n_points : Nat) (paf : List (List (Rat × Rat)))
    (src_peak dst_peak : Rat × Rat) :
    sample_edge_line pafs_stride n_points paf src_peak dst_peak =
      (List.range n_points).map (fun (k : Nat) =>
        (paf.getD (clipZ (roundHalfToEven
            ((src_peak.2 + (dst_peak.2 - src_peak.2) * (k : Rat) /
              ((n_points : Rat) - 1)) / (pafs_stride : Rat))) 0
            ((paf.length : Int) - 1)).toNat []).getD
          (clipZ (roundHalfToEven
            ((src_peak.1 + (dst_peak.1 - src_peak.1) * (k : Rat) /
              ((n_points : Rat) - 1)) / (pafs_stride : Rat))) 0
            (((paf.headD []).length : Int) - 1)).toNat
          (0, 0)) ∧
    (sample_edge_line pafs_stride n_points paf src_peak dst_peak).length =
      n_points := by
  have hmap : sample_edge_line pafs_stride n_points paf src_peak dst_peak =
      (List.range n_points).map (fun (k : Nat) =>
        (paf.getD (clipZ (roundHalfToEven
            ((src_peak.2 + (dst_peak.2 - src_peak.2) * (k : Rat) /
              ((n_points : Rat) - 1)) / (pafs_stride : Rat))) 0
            ((paf.length : Int) - 1)).toNat []).getD
          (clipZ (roundHalfToEven
            ((src_peak.1 + (dst_peak.1 - src_peak.1) * (k : Rat) /
              ((n_points : Rat) - 1)) / (pafs_stride : Rat))) 0
            (((paf.headD []).length : Int) - 1)).toNat
          (0, 0)) := by
    unfold sample_edge_line linspace
    simp only [List.map_map, List.zip_map', List.map_map]
    rfl
  refine ⟨hmap, ?_⟩
  rw [hmap, List.length_map, List.length_range]

/-! ### Pair scorer (PAFScorer.score_pair) -/

/-- `PAFScorer.score_pair` (lines 296-322).  `vnorm` stands for
`tf.norm(spatial_vec)` (line 300) — an irrational square root in general —
and is taken as an explicit argument; the theorem about this function
constrains it to be the Euclidean length of `dst_peak - src_peak`.  The
remaining statements are translated line by line: the spatial vector is
normalised by `vnorm`, the per-sample scores are the dot products with it,
the distance penalty is `max_edge_length / vnorm - 1` clamped above by 0,
and fraction_correct is the mean of the indicator of `score > min_edge_score`. -/
def score_pair (max_edge_length min_edge_score : Rat)
    (line_paf : List (Rat × Rat)) (src_peak dst_peak : Rat × Rat)
    (vnorm : Rat) : Rat × Rat :=
  let ux := (dst_peak.1 - src_peak.1) / vnorm
  let uy := (dst_peak.2 - src_peak.2) / vnorm
  let line_scores := line_paf.map (fun L => L.1 * ux + L.2 * uy)
  let dist_penalty := max_edge_length / vnorm - 1
  let line_score := line_scores.sum / (line_scores.length : Rat)
  let line_score_with_dist_penalty := line_score + min dist_penalty 0
  let fraction_correct :=
    ((line_scores.filter (fun a => decide (min_edge_score < a))).length : Rat) /
      (line_scores.length : Rat)
  (line_score_with_dist_penalty, fraction_correct)

theorem length_filter_map (l : List (Rat × Rat)) (f : Rat × Rat → Rat)
    (p : Rat → Bool) :
    ((l.map f).filter p).length = (l.filter (fun x => p (f x))).length := by
  induction l with
  | nil => rfl
  | cons x xs ih =>
      by_cases hx : p (f x) <;>
        simp [List.filter_cons, hx, ih]

/-- Claim C7: for distinct peaks at Euclidean distance r > 0, score_pair
returns final_score = mean of the dot products of the sampled PAF vectors
with the unit vector (dst-src)/r, plus min(max_edge_length/r - 1, 0) — in
particular the penalty term vanishes whenever r ≤ max_edge_length — and
fraction_correct = the fraction of per-sample dot products strictly greater
than min_edge_score. -/
theorem C7_score_pair (D t : Rat) (line_paf : List (Rat × Rat))
    (src_peak dst_peak : Rat × Rat) (r : Rat) (hr : 0 < r)
    (hnorm : r ^ 2 =
      (dst_peak.1 - src_peak.1) ^ 2 + (dst_peak.2 - src_peak.2) ^ 2)
    (hne : line_paf ≠ []) :
    (score_pair D t line_paf src_peak dst_peak r).1 =
      (line_paf.map (fun L =>
        (L.1 * (dst_peak.1 - src_peak.1) + L.2 * (dst_peak.2 - src_peak.2)) /
          r)).sum / (line_paf.length : Rat) + min (D / r - 1) 0 ∧
    (r ≤ D → (score_pair D t line_paf src_peak dst_peak r).1 =
      (line_paf.map (fun L =>
        (L.1 * (dst_peak.1 - src_peak.1) + L.2 * (dst_peak.2 - src_peak.2)) /
          r)).sum / (line_paf.length : Rat)) ∧
    (score_pair D t line_paf src_peak dst_peak r).2 =
      ((line_paf.filter (fun L => decide (t <
        (L.1 * (dst_peak.1 - src_peak.1) + L.2 * (dst_peak.2 - src_peak.2)) /
          r))).length : Rat) / (line_paf.length : Rat) := by
  have hmapeq : line_paf.map (fun L =>
      L.1 * ((dst_peak.1 - src_peak.1) / r) +
        L.2 * ((dst_peak.2 - src_peak.2) / r)) =
      line_paf.map (fun L =>
        (L.1 * (dst_peak.1 - src_peak.1) + L.2 * (dst_peak.2 - src_peak.2)) /
          r) := by
    apply List.map_congr_left
    intro L _
    rw [← mul_div_assoc, ← mul_div_assoc, div_add_div_same]
  have hfirst : (score_pair D t line_paf src_peak dst_peak r).1 =
      (line_paf.map (fun L =>
        (L.1 * (dst_peak.1 - src_peak.1) + L.2 * (dst_peak.2 - src_peak.2)) /
          r)).sum / (line_paf.length : Rat) + min (D / r - 1) 0 := by
    simp only [score_pair]
    rw [hmapeq, List.length_map]
  refine ⟨hfirst, ?_, ?_⟩
  · intro hrD
    rw [hfirst]
    have hpen : min (D / r - 1) 0 = 0 := by
      apply min_eq_right
      have h1 : 1 ≤ D / r := (one_le_div hr).2 hrD
      linarith
    rw [hpen, add_zero]
  · simp only [score_pair]
    rw [hmapeq, List.length_map,
      length_filter_map line_paf _ (fun a => decide (t < a))]

/-- Witness for C7_score_pair at src (0,0), dst (3,4), r = 5 (a rational
Euclidean length), one sampled vector (1,0): the mean dot product is 3/5,
the penalty vanishes (5 ≤ 128), and the single dot product exceeds 1/20. -/
theorem C7_score_pair_witness :
    (score_pair 128 (1 / 20) [(1, 0)] (0, 0) (3, 4) 5).1 = 3 / 5 ∧
    (score_pair 128 (1 / 20) [(1, 0)] (0, 0) (3, 4) 5).2 = 1 := by
  have h := C7_score_pair 128 (1 / 20) [(1, 0)] (0, 0) (3, 4) 5
    (by norm_num) (by norm_num) (by simp)
  constructor
  · rw [h.2.1 (by norm_num)]
    norm_num
  · rw [h.2.2]
    have hc : (1 / 20 : Rat) <
        ((1 : Rat) * ((3 : Rat) - 0) + (0 : Rat) * ((4 : Rat) - 0)) / 5 := by
      norm_num
    simp [List.filter_cons, hc]
    rw [if_pos (show ((20 : Rat))⁻¹ < 3 / 5 by norm_num)]
    rfl

/-! ### Edge scorer (PAFScorer.score_edge) and claim C2 -/

/-- `tf.TensorArray.write` for a row of scalars, functionally: the arrays in
score_edge are written at indices 0, 1, 2, ... in order, so a write either
overwrites an existing cell or appends at the end.  (TensorFlow additionally
raises an error when an index that was already written is written again;
the functional overwrite used here is the reading most favourable to the
code, and the claim fails under either semantics.) -/
def taWriteRow (l : List Rat) (i : Nat) (x : Rat) : List Rat :=
  if i < l.length then l.set i x else l ++ [x]

/-- `tf.TensorArray.write` for an array of rows (after `stack`). -/
def taWriteMat (l : List (List Rat)) (i : Nat) (x : List Rat) :
    List (List Rat) :=
  if i < l.length then l.set i x else l ++ [x]

/-- `PAFScorer.score_edge` (lines 324-363), with the per-pair call
`self.score_pair(self.sample_edge_line(paf, src_peaks[i], dst_peaks[j]),
src_peaks[i], dst_peaks[j])` abstracted as `score i j` (its two components
are the pair's line score and fraction_correct).  The TensorArray
bookkeeping of the two nested loops is translated statement by statement;
in particular line 357 is `line_scores = line_scores.write(i, line_scores_i)`
and line 358 is `fraction_correct = line_scores.write(i, fraction_correct_i)`
— the source writes the fraction row into the LINE-SCORE array (and the
fraction_correct TensorArray created at line 327 is never written). -/
def score_edge (score : Nat → Nat → Rat × Rat) (n_src n_dst : Nat) :
    List (List Rat) × List (List Rat) :=
  (List.range n_src).foldl
    (fun st i =>
      let rows := (List.range n_dst).foldl
        (fun rows j =>
          (taWriteRow rows.1 j (score i j).1,
           taWriteRow rows.2 j (score i j).2))
        ([], [])
      let line_scores := taWriteMat st.1 i rows.1
      let fraction_correct := taWriteMat line_scores i rows.2
      (line_scores, fraction_correct))
    ([], [])

/-- The concrete per-pair scoring function of the C2 failing input:
line score Σ[i,0] = 10·i and fraction_correct Φ[i,0] = 100 + 10·i. -/
def scoreFnC2 (i : Nat) (j : Nat) : Rat × Rat :=
  (if i = 0 then (0 : Rat) else 10, if i = 0 then (100 : Rat) else 110)

/-- Claim C2 (refuted — code bug, flagged by the spec itself in section 9):
with 2 source peaks and 1 destination peak, score_edge's returned
fraction_correct matrix is [[0], [110]] — its first row is the LINE-SCORE
row written by the misdirected `line_scores.write(i, fraction_correct_i)`
of line 358 — and not the per-pair fraction_correct matrix
[[Φ[0,0]], [Φ[1,0]]] = [[100], [110]], while the line-score matrix itself
is correct.  Hence score_and_match_edge cannot return Φ[i_m, j_m]. -/
theorem C2_score_edge_bug :
    (score_edge scoreFnC2 2 1).1 =
      [[(scoreFnC2 0 0).1], [(scoreFnC2 1 0).1]] ∧
    (score_edge scoreFnC2 2 1).2 = [[0], [110]] ∧
    (score_edge scoreFnC2 2 1).2 ≠
      [[(scoreFnC2 0 0).2], [(scoreFnC2 1 0).2]] := by
  decide
